import Mathlib

/-!
Shallow embedding of `src/main.py` (class `EmailCustomizer`): a pipeline that
loads a CSV table, resolves columns positionally (name = column 0,
description = column 3, output = column 4 or a fresh default label), asks a
text-generation oracle for a customized email per row, writes the result into
the output column, and saves the table to a derived path.

Cells are modelled by an inductive `Cell` (the missing-value marker `na`,
strings, numbers); a table is a header plus a list of rows.  The external
oracle is a function from a model identifier and a message list to
`Except String String` (an `error` models a raised exception inside the
`try` block).  Observable side effects (parse attempts, generator calls,
file writes) are collected in an event trace.
-/

set_option autoImplicit false

/-- A spreadsheet cell: the missing-value marker (pandas `NaN`), a string, or
a number. -/
inductive Cell where
  | na : Cell
  | str : String → Cell
  | num : Int → Cell
deriving DecidableEq, Repr

/-- Embeds `pd.isna` on a cell. -/
def Cell.isNA : Cell → Bool
  | Cell.na => true
  | _ => false

/-- Embeds Python `str(...)` applied to a cell value. -/
def Cell.toText : Cell → String
  | Cell.na => "nan"
  | Cell.str s => s
  | Cell.num n => toString n

/-- A row-oriented table: a header of column labels and a list of rows, each
row a list of cells parallel to the header. -/
structure Table where
  header : List String
  rows : List (List Cell)
deriving DecidableEq, Repr

/-- Well-formedness of a loaded table, as pandas guarantees after `read_csv`:
every row has exactly one cell per header label, and column labels are
distinct (pandas mangles duplicate CSV headers on read). -/
def Table.WF (t : Table) : Prop :=
  (∀ r ∈ t.rows, r.length = t.header.length) ∧ t.header.Nodup

/-- Error taxonomy of the run, following the spec's names for the exceptions
the code raises (`FileNotFoundError`, a parse failure re-raised by
`read_csv`, the `ValueError` for too few columns, a save failure). -/
inductive Err where
  | notFound : String → Err
  | parseError : String → Err
  | schemaError : String → Err
  | ioError : String → Err
deriving DecidableEq, Repr

/-- Observable events of a run: a parse attempt (`pd.read_csv`), a generator
call for a row (with the two text arguments), and an output-file write. -/
inductive Event where
  | parseAttempt : Event
  | genCall : Nat → String → String → Event
  | fileWrite : String → String → Event
deriving DecidableEq, Repr

/-- The external text-generation oracle: takes the model identifier and the
ordered (role, content) message list; `Except.error e` models the call
raising an exception with message `e`. -/
def Oracle : Type := String → List (String × String) → Except String String

/-- Content of the system message of the chat request (source line 65). -/
def systemPersona : String :=
  "You are a student applying for an internship. You maintain a professional tone."

/-- The user prompt built by `generate_custom_email` (source lines 46-60),
with the f-string's literal indentation and newlines. -/
def promptFor (genericEmail companyName companyDescription : String) : String :=
  "\n            Original email template:\n            " ++ genericEmail ++
  "\n            \n            Company name:\n            " ++ companyName ++
  "\n            \n            Company description:\n            " ++ companyDescription ++
  "\n            \n            Please customize the email template for this specific company,\n            incorporating relevant details from the company name and description.\n            Keep the email professional and concise.\n            You will only output the customized email content.\n            "

/-- Embeds `EmailCustomizer.generate_custom_email`: one synchronous oracle
call with model `gpt-4o` and a two-message exchange; on success the oracle's
text is returned verbatim, on any failure the inline error string is
returned instead of propagating. -/
def generate_custom_email (oracle : Oracle) (genericEmail companyName companyDescription : String) : String :=
  match oracle "gpt-4o"
      [("system", systemPersona), ("user", promptFor genericEmail companyName companyDescription)] with
  | Except.ok s => s
  | Except.error e => "Error generating email: " ++ e

/-- Column resolution, positional mode: the company-name column is the first
column's label (source line 85). -/
def company_name_column (t : Table) : String :=
  t.header.getD 0 ""

/-- Column resolution, positional mode: the description column is the fourth
column's label (source line 86). -/
def description_column (t : Table) : String :=
  t.header.getD 3 ""

/-- Column resolution, positional mode: the output column is the fifth
column's label if the table has more than 4 columns, else the default label
`Generated_Email` (source line 87). -/
def output_column (t : Table) : String :=
  t.header.getD 4 "Generated_Email"

/-- The skip test of the row loop (source line 93): the row is skipped when
the description cell or the name cell is the missing-value marker. -/
def shouldSkip (r : List Cell) : Bool :=
  (r.getD 3 Cell.na).isNA || (r.getD 0 Cell.na).isNA

/-- The generated email for a row: `generate_custom_email` applied to the
`str(...)` conversions of the row's name cell and description cell. -/
def emailFor (oracle : Oracle) (genericEmail : String) (r : List Cell) : String :=
  generate_custom_email oracle genericEmail
    (Cell.toText (r.getD 0 Cell.na)) (Cell.toText (r.getD 3 Cell.na))

/-- Embeds `df.at[index, label] = v`: if the label is a column of the table,
the cell of row `i` in that column is overwritten; otherwise the column is
first created (every row gets the missing marker) and then the cell of row
`i` is set. -/
def writeCell (t : Table) (i : Nat) (lbl : String) (v : Cell) : Table :=
  if lbl ∈ t.header then
    { t with rows := t.rows.set i (((t.rows.getD i []).set (t.header.indexOf lbl) v)) }
  else
    { header := t.header ++ [lbl],
      rows :=
        let padded := t.rows.map (fun r => r ++ [Cell.na])
        padded.set i ((padded.getD i []).set t.header.length v) }

/-- The row loop of `process_spreadsheet` (source lines 90-103): iterates the
original rows with their indices, skips rows whose name or description cell
is missing, otherwise calls the generator and writes its result into the
output column of that row.  Returns the final table and the generator-call
events in order. -/
def processRowsAux (oracle : Oracle) (genericEmail outLbl : String) :
    Nat → List (List Cell) → Table → Table × List Event
  | _, [], acc => (acc, [])
  | i, r :: rs, acc =>
    if shouldSkip r then
      processRowsAux oracle genericEmail outLbl (i + 1) rs acc
    else
      let nm := Cell.toText (r.getD 0 Cell.na)
      let ds := Cell.toText (r.getD 3 Cell.na)
      let acc2 := writeCell acc i outLbl (Cell.str (generate_custom_email oracle genericEmail nm ds))
      let res := processRowsAux oracle genericEmail outLbl (i + 1) rs acc2
      (res.1, Event.genCall i nm ds :: res.2)

/-- Embeds `EmailCustomizer.process_spreadsheet` on an already-loaded table:
fails with the schema error when the table has fewer than 4 columns,
otherwise resolves the output column and runs the row loop. -/
def process_spreadsheet (oracle : Oracle) (genericEmail : String) (t : Table) :
    Except Err (Table × List Event) :=
  if t.header.length < 4 then
    Except.error (Err.schemaError "Spreadsheet must have at least 4 columns")
  else
    Except.ok (processRowsAux oracle genericEmail (output_column t) 0 t.rows t)

/-- A file path split into its directory part and its final name component,
as `pathlib.Path` exposes them (`with_name` replaces only the name). -/
structure FsPath where
  dir : String
  base : String
deriving DecidableEq, Repr

/-- Display string of a path (used in the not-found error message). -/
def pathDisplay (p : FsPath) : String :=
  p.dir ++ p.base

/-- Index of the last dot of a character list, if any. -/
def lastDotAux : List Char → Nat → Option Nat → Option Nat
  | [], _, acc => acc
  | c :: cs, i, acc => lastDotAux cs (i + 1) (if c = '.' then some i else acc)

/-- Index of the last dot of a name's characters. -/
def lastDot (cs : List Char) : Option Nat :=
  lastDotAux cs 0 none

/-- The split position of `pathlib`'s stem/suffix rule: the last dot counts
only when it is neither the first character nor the last one. -/
def dotSplitIdx (name : String) : Option Nat :=
  match lastDot name.data with
  | some i => if 0 < i ∧ i + 1 < name.data.length then some i else none
  | none => none

/-- Embeds `Path.stem`: the name without its extension. -/
def stemOf (name : String) : String :=
  match dotSplitIdx name with
  | some i => String.mk (name.data.take i)
  | none => name

/-- Embeds `Path.suffix`: the extension including its dot, or empty. -/
def suffixOf (name : String) : String :=
  match dotSplitIdx name with
  | some i => String.mk (name.data.drop i)
  | none => ""

/-- The output file name of `save_spreadsheet` (source line 111):
`stem + "_updated" + suffix`. -/
def outputName (name : String) : String :=
  stemOf name ++ "_updated" ++ suffixOf name

/-- The output path of `save_spreadsheet`: `with_name` keeps the directory
and replaces the name by the updated one. -/
def savePath (p : FsPath) : FsPath :=
  FsPath.mk p.dir (outputName p.base)

/-- The ambient file system and oracle-independent environment of one run:
whether the input path exists, what parsing it yields, and whether the
output write succeeds. -/
structure FS where
  pathExists : Bool
  parseResult : Except String Table
  writeOk : Bool

/-- One whole run of `main`: the constructor's existence check, then
`process_spreadsheet` (which first reads the CSV), then `save_spreadsheet`.
Returns the outcome and the ordered event trace. -/
def run (fs : FS) (oracle : Oracle) (genericEmail : String) (p : FsPath) :
    Except Err Unit × List Event :=
  if fs.pathExists = false then
    (Except.error (Err.notFound ("csv file not found at " ++ pathDisplay p)), [])
  else
    match fs.parseResult with
    | Except.error e => (Except.error (Err.parseError e), [Event.parseAttempt])
    | Except.ok t =>
      match process_spreadsheet oracle genericEmail t with
      | Except.error err => (Except.error err, [Event.parseAttempt])
      | Except.ok (_t2, evs) =>
        if fs.writeOk then
          (Except.ok (),
           Event.parseAttempt :: evs ++ [Event.fileWrite (savePath p).dir (savePath p).base])
        else
          (Except.error (Err.ioError "Error saving spreadsheet"), Event.parseAttempt :: evs)

/-- The expected generator-call event trace of the row loop: one event per
non-skipped row, in row order, carrying the row index and the text
conversions of the name and description cells. -/
def genEvents (i : Nat) : List (List Cell) → List Event
  | [] => []
  | r :: rs =>
    if shouldSkip r then genEvents (i + 1) rs
    else
      Event.genCall i (Cell.toText (r.getD 0 Cell.na)) (Cell.toText (r.getD 3 Cell.na)) ::
        genEvents (i + 1) rs

theorem getD_append_len {α : Type} (done : List α) (y : α) (l : List α) (d : α) :
    (done ++ y :: l).getD done.length d = y := by
  induction done with
  | nil => rfl
  | cons a tl ih => simpa [List.getD] using ih

theorem set_append_len {α : Type} (done : List α) (y x : α) (l : List α) :
    (done ++ y :: l).set done.length x = done ++ x :: l := by
  induction done with
  | nil => rfl
  | cons a tl ih => simp [List.set, ih]

theorem getD_append_lt {α : Type} (l1 l2 : List α) (i : Nat) (d : α) (h : i < l1.length) :
    (l1 ++ l2).getD i d = l1.getD i d := by
  rw [List.getD_eq_getElem _ _ (by simp; omega), List.getD_eq_getElem _ _ h,
    List.getElem_append_left h]

theorem getD_concat_lt {α : Type} (l : List α) (x : α) (i : Nat) (d : α) (h : i < l.length) :
    (l ++ [x]).getD i d = l.getD i d :=
  getD_append_lt l [x] i d h

theorem concat_set_len {α : Type} (l : List α) (x v : α) :
    (l ++ [x]).set l.length v = l ++ [v] :=
  set_append_len l x v []

theorem getD_set_self {α : Type} (l : List α) (c : Nat) (v d : α) (h : c < l.length) :
    (l.set c v).getD c d = v := by
  rw [List.getD_eq_getElem _ _ (by simpa using h)]
  exact List.getElem_set_self _

theorem getD_set_ne {α : Type} (l : List α) (c c2 : Nat) (v d : α) (h : c ≠ c2) :
    (l.set c v).getD c2 d = l.getD c2 d := by
  by_cases h2 : c2 < l.length
  · rw [List.getD_eq_getElem _ _ (by simpa using h2), List.getD_eq_getElem _ _ h2]
    exact List.getElem_set_ne h _
  · rw [List.getD_eq_default _ _ (by simp; omega), List.getD_eq_default _ _ (by omega)]

theorem getD_map_lt {α β : Type} (f : α → β) (l : List α) (i : Nat) (d : β) (d2 : α)
    (h : i < l.length) :
    (l.map f).getD i d = f (l.getD i d2) := by
  rw [List.getD_eq_getElem _ _ (by simpa using h), List.getD_eq_getElem _ _ h,
    List.getElem_map]

theorem indexOf_getD_of_nodup (l : List String) (hnd : l.Nodup) (i : Nat) (d : String)
    (hi : i < l.length) :
    l.indexOf (l.getD i d) = i := by
  rw [List.getD_eq_getElem _ _ hi]
  simpa using List.get_indexOf hnd ⟨i, hi⟩

theorem getD_indexOf_of_mem (l : List String) (a : String) (d : String) (h : a ∈ l) :
    l.getD (l.indexOf a) d = a := by
  have hlt := List.indexOf_lt_length.mpr h
  rw [List.getD_eq_getElem _ _ hlt]
  exact List.getElem_indexOf hlt

theorem shouldSkip_concat (r : List Cell) (x : Cell) (h : 4 ≤ r.length) :
    shouldSkip (r ++ [x]) = shouldSkip r := by
  unfold shouldSkip
  rw [getD_concat_lt _ _ _ _ (by omega), getD_concat_lt _ _ _ _ (by omega)]

theorem emailFor_concat (oracle : Oracle) (ge : String) (r : List Cell) (x : Cell)
    (h : 4 ≤ r.length) :
    emailFor oracle ge (r ++ [x]) = emailFor oracle ge r := by
  unfold emailFor
  rw [getD_concat_lt _ _ _ _ (by omega), getD_concat_lt _ _ _ _ (by omega)]

theorem genEvents_map_pad (rs : List (List Cell)) :
    ∀ (i : Nat), (∀ r ∈ rs, 4 ≤ r.length) →
    genEvents i (rs.map (fun r => r ++ [Cell.na])) = genEvents i rs := by
  induction rs with
  | nil => intro i _; rfl
  | cons r rs ih =>
    intro i h
    have hr : 4 ≤ r.length := h r (by simp)
    have hrs : ∀ x ∈ rs, 4 ≤ x.length := fun x hx => h x (by simp [hx])
    simp only [List.map_cons, genEvents, shouldSkip_concat r Cell.na hr,
      getD_concat_lt r Cell.na 0 Cell.na (by omega),
      getD_concat_lt r Cell.na 3 Cell.na (by omega), ih (i + 1) hrs]

theorem processRowsAux_cons_skip (oracle : Oracle) (ge outLbl : String) (i : Nat)
    (r : List Cell) (rs : List (List Cell)) (acc : Table) (hs : shouldSkip r = true) :
    processRowsAux oracle ge outLbl i (r :: rs) acc =
      processRowsAux oracle ge outLbl (i + 1) rs acc := by
  rw [processRowsAux, if_pos hs]

theorem processRowsAux_cons_proc (oracle : Oracle) (ge outLbl : String) (i : Nat)
    (r : List Cell) (rs : List (List Cell)) (acc : Table) (hs : shouldSkip r = false) :
    processRowsAux oracle ge outLbl i (r :: rs) acc =
      ((processRowsAux oracle ge outLbl (i + 1) rs
          (writeCell acc i outLbl (Cell.str (emailFor oracle ge r)))).1,
       Event.genCall i (Cell.toText (r.getD 0 Cell.na)) (Cell.toText (r.getD 3 Cell.na)) ::
       (processRowsAux oracle ge outLbl (i + 1) rs
          (writeCell acc i outLbl (Cell.str (emailFor oracle ge r)))).2) := by
  rw [processRowsAux, if_neg (by simp [hs])]
  rfl

theorem genEvents_cons_skip (i : Nat) (r : List Cell) (rs : List (List Cell))
    (hs : shouldSkip r = true) :
    genEvents i (r :: rs) = genEvents (i + 1) rs := by
  rw [genEvents, if_pos hs]

theorem genEvents_cons_proc (i : Nat) (r : List Cell) (rs : List (List Cell))
    (hs : shouldSkip r = false) :
    genEvents i (r :: rs) =
      Event.genCall i (Cell.toText (r.getD 0 Cell.na)) (Cell.toText (r.getD 3 Cell.na)) ::
        genEvents (i + 1) rs := by
  rw [genEvents, if_neg (by simp [hs])]

/-- Characterization of the row loop when the output label is an existing
column of the accumulated table, generalized: the loop iterates the original
rows `rs` (pandas `iterrows` snapshots the values at loop entry) while the
accumulated table holds `done ++ pend`; each non-skipped original row causes
the corresponding pending row to receive the generated email at the output
label's column index. -/
theorem processRowsAux_mem_gen (oracle : Oracle) (ge outLbl : String) (hdr : List String)
    (hmem : outLbl ∈ hdr) :
    ∀ (rs pend done : List (List Cell)), pend.length = rs.length →
      processRowsAux oracle ge outLbl done.length rs (Table.mk hdr (done ++ pend)) =
        (Table.mk hdr (done ++ (rs.zip pend).map (fun rp =>
            if shouldSkip rp.1 then rp.2
            else rp.2.set (hdr.indexOf outLbl) (Cell.str (emailFor oracle ge rp.1)))),
         genEvents done.length rs) := by
  intro rs
  induction rs with
  | nil =>
    intro pend done hlen
    rw [List.length_eq_zero.mp hlen]
    simp [processRowsAux, genEvents]
  | cons r rs ih =>
    intro pend done hlen
    cases pend with
    | nil => simp at hlen
    | cons p ps =>
      have hlen2 : ps.length = rs.length := by simpa using hlen
      by_cases hs : shouldSkip r
      · rw [processRowsAux_cons_skip oracle ge outLbl done.length r rs _ hs,
          genEvents_cons_skip done.length r rs hs]
        have h2 := ih ps (done ++ [p]) hlen2
        simp only [List.length_append, List.length_cons, List.length_nil, Nat.zero_add,
          List.append_assoc, List.singleton_append] at h2
        rw [h2]
        simp [hs]
      · rw [processRowsAux_cons_proc oracle ge outLbl done.length r rs _ (by simpa using hs),
          genEvents_cons_proc done.length r rs (by simpa using hs)]
        have hw : writeCell (Table.mk hdr (done ++ p :: ps)) done.length outLbl
            (Cell.str (emailFor oracle ge r)) =
            Table.mk hdr
              (done ++ (p.set (hdr.indexOf outLbl) (Cell.str (emailFor oracle ge r))) :: ps) := by
          rw [writeCell]
          simp only [if_pos hmem]
          rw [getD_append_len, set_append_len]
        rw [hw]
        have h2 := ih ps (done ++ [p.set (hdr.indexOf outLbl) (Cell.str (emailFor oracle ge r))])
          hlen2
        simp only [List.length_append, List.length_cons, List.length_nil, Nat.zero_add,
          List.append_assoc, List.singleton_append] at h2
        rw [h2]
        simp [hs]

theorem zip_self_map {α β : Type} (f : α → β) (l : List α) :
    l.zip (l.map f) = l.map (fun a => (a, f a)) := by
  induction l with
  | nil => rfl
  | cons a tl ih => simp [ih]

/-- Characterization of the row loop when the output label is not an existing
column: if every row is skipped the table is unchanged (the column is only
created at the first write); otherwise the header gains the new label and
every row gains one final cell — the generated email for non-skipped rows,
the missing marker for skipped ones. -/
theorem processRowsAux_nonmem (oracle : Oracle) (ge outLbl : String) (hdr : List String)
    (hnm : outLbl ∉ hdr) :
    ∀ (rs done : List (List Cell)), (∀ r ∈ rs, r.length = hdr.length) →
      processRowsAux oracle ge outLbl done.length rs (Table.mk hdr (done ++ rs)) =
        (if rs.all shouldSkip then Table.mk hdr (done ++ rs)
         else Table.mk (hdr ++ [outLbl])
            (done.map (fun r => r ++ [Cell.na]) ++ rs.map (fun r =>
               r ++ [if shouldSkip r then Cell.na else Cell.str (emailFor oracle ge r)])),
         genEvents done.length rs) := by
  intro rs
  induction rs with
  | nil => intro done _; simp [processRowsAux, genEvents]
  | cons r rs ih =>
    intro done hwf
    have hwfr : r.length = hdr.length := hwf r (by simp)
    have hwfrs : ∀ x ∈ rs, x.length = hdr.length := fun x hx => hwf x (by simp [hx])
    by_cases hs : shouldSkip r
    · rw [processRowsAux_cons_skip oracle ge outLbl done.length r rs _ hs,
        genEvents_cons_skip done.length r rs hs]
      have h2 := ih (done ++ [r]) hwfrs
      simp only [List.length_append, List.length_cons, List.length_nil, Nat.zero_add,
        List.append_assoc, List.singleton_append] at h2
      rw [h2]
      by_cases hall : rs.all shouldSkip
      · simp [hall, hs]
      · simp [hall, hs]
    · rw [processRowsAux_cons_proc oracle ge outLbl done.length r rs _ (by simpa using hs),
        genEvents_cons_proc done.length r rs (by simpa using hs)]
      have hw : writeCell (Table.mk hdr (done ++ r :: rs)) done.length outLbl
          (Cell.str (emailFor oracle ge r)) =
          Table.mk (hdr ++ [outLbl])
            ((done.map (fun x => x ++ [Cell.na])) ++
              (r ++ [Cell.str (emailFor oracle ge r)]) :: rs.map (fun x => x ++ [Cell.na])) := by
        rw [writeCell]
        simp only [if_neg hnm]
        have hpad : (done ++ r :: rs).map (fun x => x ++ [Cell.na]) =
            done.map (fun x => x ++ [Cell.na]) ++
              (r ++ [Cell.na]) :: rs.map (fun x => x ++ [Cell.na]) := by
          simp
        simp only [hpad]
        rw [show done.length = (done.map (fun x => x ++ [Cell.na])).length from (by simp)]
        rw [getD_append_len, set_append_len]
        rw [show hdr.length = r.length from hwfr.symm, concat_set_len]
      rw [hw]
      have hmem2 : outLbl ∈ hdr ++ [outLbl] := by simp
      have hidx : (hdr ++ [outLbl]).indexOf outLbl = hdr.length := by
        rw [List.indexOf_append_of_not_mem hnm, List.indexOf_cons_self]
        omega
      have h2 := processRowsAux_mem_gen oracle ge outLbl (hdr ++ [outLbl]) hmem2
        rs (rs.map (fun x => x ++ [Cell.na]))
        (done.map (fun x => x ++ [Cell.na]) ++ [r ++ [Cell.str (emailFor oracle ge r)]])
        (by simp)
      have hzipmap : ((rs.zip (rs.map (fun x => x ++ [Cell.na]))).map (fun rp =>
          if shouldSkip rp.1 then rp.2
          else rp.2.set ((hdr ++ [outLbl]).indexOf outLbl)
            (Cell.str (emailFor oracle ge rp.1)))) =
          rs.map (fun x =>
            x ++ [if shouldSkip x then Cell.na else Cell.str (emailFor oracle ge x)]) := by
        rw [zip_self_map, List.map_map]
        apply List.map_congr_left
        intro x hx
        have hxl : x.length = hdr.length := hwfrs x hx
        simp only [Function.comp]
        by_cases hxs : shouldSkip x
        · simp [hxs]
        · simp only [hxs, Bool.false_eq_true, if_false]
          rw [hidx, show hdr.length = x.length from hxl.symm, concat_set_len]
      rw [hzipmap] at h2
      simp only [List.length_append, List.length_map, List.length_cons, List.length_nil,
        Nat.zero_add, List.append_assoc, List.singleton_append] at h2
      rw [h2]
      simp [hs]

theorem zip_self {α : Type} (l : List α) : l.zip l = l.map (fun a => (a, a)) := by
  have h := zip_self_map (fun a => a) l
  simpa using h

/-- Full-run characterization of `process_spreadsheet` when the resolved
output label is an existing column. -/
theorem process_spreadsheet_mem (oracle : Oracle) (ge : String) (t : Table)
    (h4 : 4 ≤ t.header.length) (hmem : output_column t ∈ t.header) :
    process_spreadsheet oracle ge t = Except.ok
      (Table.mk t.header (t.rows.map (fun r =>
         if shouldSkip r then r
         else r.set (t.header.indexOf (output_column t)) (Cell.str (emailFor oracle ge r)))),
       genEvents 0 t.rows) := by
  obtain ⟨hdr, rows⟩ := t
  rw [process_spreadsheet, if_neg (by simp at h4 ⊢; omega)]
  have h2 := processRowsAux_mem_gen oracle ge (output_column (Table.mk hdr rows)) hdr hmem
    rows rows [] rfl
  simp only [List.nil_append, List.length_nil] at h2
  rw [h2, zip_self, List.map_map]
  rfl

/-- Full-run characterization of `process_spreadsheet` when the resolved
output label is not an existing column. -/
theorem process_spreadsheet_nonmem (oracle : Oracle) (ge : String) (t : Table)
    (h4 : 4 ≤ t.header.length) (hnm : output_column t ∉ t.header)
    (hwf : ∀ r ∈ t.rows, r.length = t.header.length) :
    process_spreadsheet oracle ge t = Except.ok
      (if t.rows.all shouldSkip then t
       else Table.mk (t.header ++ [output_column t])
          (t.rows.map (fun r =>
             r ++ [if shouldSkip r then Cell.na else Cell.str (emailFor oracle ge r)])),
       genEvents 0 t.rows) := by
  obtain ⟨hdr, rows⟩ := t
  rw [process_spreadsheet, if_neg (by simp at h4 ⊢; omega)]
  have h2 := processRowsAux_nonmem oracle ge (output_column (Table.mk hdr rows)) hdr hnm
    rows [] hwf
  simp only [List.nil_append, List.length_nil, List.map_nil] at h2
  rw [h2]

theorem genEvents_call_mem (rs : List (List Cell)) :
    ∀ (j i : Nat) (nm ds : String), Event.genCall i nm ds ∈ genEvents j rs →
      j ≤ i ∧ i - j < rs.length ∧ shouldSkip (rs.getD (i - j) []) = false ∧
        nm = Cell.toText ((rs.getD (i - j) []).getD 0 Cell.na) ∧
        ds = Cell.toText ((rs.getD (i - j) []).getD 3 Cell.na) := by
  induction rs with
  | nil => intro j i nm ds h; simp [genEvents] at h
  | cons r rs ih =>
    intro j i nm ds h
    by_cases hs : shouldSkip r
    · rw [genEvents_cons_skip j r rs hs] at h
      obtain ⟨h1, h2, h3, h4, h5⟩ := ih (j + 1) i nm ds h
      have hij : i - j = (i - (j + 1)) + 1 := by omega
      refine ⟨by omega, by simp; omega, ?_, ?_, ?_⟩
      · rw [hij]; simpa using h3
      · rw [hij]; simpa using h4
      · rw [hij]; simpa using h5
    · rw [genEvents_cons_proc j r rs (by simpa using hs)] at h
      rcases List.mem_cons.mp h with heq | htail
      · obtain ⟨h1, h2, h3⟩ := Event.genCall.inj heq
        refine ⟨by omega, by simp [h1], ?_, ?_, ?_⟩
        · rw [show i - j = 0 from (by omega)]
          simpa using hs
        · rw [show i - j = 0 from (by omega)]
          simpa using h2
        · rw [show i - j = 0 from (by omega)]
          simpa using h3
      · obtain ⟨h1, h2, h3, h4, h5⟩ := ih (j + 1) i nm ds htail
        have hij : i - j = (i - (j + 1)) + 1 := by omega
        refine ⟨by omega, by simp; omega, ?_, ?_, ?_⟩
        · rw [hij]; simpa using h3
        · rw [hij]; simpa using h4
        · rw [hij]; simpa using h5

theorem genEvents_call_not_mem_of_lt (rs : List (List Cell)) (j i : Nat) (nm ds : String)
    (hlt : i < j) :
    Event.genCall i nm ds ∉ genEvents j rs := by
  intro h
  have := (genEvents_call_mem rs j i nm ds h).1
  omega

theorem genEvents_call_of_proc (rs : List (List Cell)) :
    ∀ (j i : Nat), j ≤ i → i - j < rs.length → shouldSkip (rs.getD (i - j) []) = false →
      Event.genCall i (Cell.toText ((rs.getD (i - j) []).getD 0 Cell.na))
        (Cell.toText ((rs.getD (i - j) []).getD 3 Cell.na)) ∈ genEvents j rs := by
  induction rs with
  | nil => intro j i _ h _; simp at h
  | cons r rs ih =>
    intro j i hji hlen hsk
    by_cases hij : i = j
    · subst hij
      have h0 : i - i = 0 := by omega
      rw [h0] at hsk ⊢
      simp only [List.getD] at hsk ⊢
      rw [genEvents_cons_proc i r rs (by simpa using hsk)]
      simp
    · have hij2 : i - j = (i - (j + 1)) + 1 := by omega
      have hsk2 : shouldSkip (rs.getD (i - (j + 1)) []) = false := by
        rw [hij2] at hsk
        simpa using hsk
      have htail := ih (j + 1) i (by omega) (by simp at hlen; omega) hsk2
      rw [hij2]
      simp only [List.getD_cons_succ]
      by_cases hs : shouldSkip r
      · rw [genEvents_cons_skip j r rs hs]
        exact htail
      · rw [genEvents_cons_proc j r rs (by simpa using hs)]
        exact List.mem_cons_of_mem _ htail

theorem genEvents_count_one (rs : List (List Cell)) :
    ∀ (j i : Nat), j ≤ i → i - j < rs.length → shouldSkip (rs.getD (i - j) []) = false →
      (genEvents j rs).count (Event.genCall i
        (Cell.toText ((rs.getD (i - j) []).getD 0 Cell.na))
        (Cell.toText ((rs.getD (i - j) []).getD 3 Cell.na))) = 1 := by
  induction rs with
  | nil => intro j i _ h _; simp at h
  | cons r rs ih =>
    intro j i hji hlen hsk
    by_cases hij : i = j
    · have h0 : i - j = 0 := by omega
      rw [h0] at hsk ⊢
      simp only [List.getD_cons_zero] at hsk ⊢
      rw [genEvents_cons_proc j r rs hsk]
      have hnm : Event.genCall i (Cell.toText (r.getD 0 Cell.na))
          (Cell.toText (r.getD 3 Cell.na)) ∉ genEvents (j + 1) rs :=
        genEvents_call_not_mem_of_lt rs (j + 1) i _ _ (by omega)
      rw [List.count_cons]
      rw [List.count_eq_zero.mpr hnm]
      simp [hij]
    · have hij2 : i - j = (i - (j + 1)) + 1 := by omega
      have hsk2 : shouldSkip (rs.getD (i - (j + 1)) []) = false := by
        rw [hij2] at hsk
        simpa using hsk
      have htail := ih (j + 1) i (by omega) (by simp at hlen; omega) hsk2
      rw [hij2]
      simp only [List.getD_cons_succ]
      by_cases hs : shouldSkip r
      · rw [genEvents_cons_skip j r rs hs]
        exact htail
      · rw [genEvents_cons_proc j r rs (by simpa using hs)]
        rw [List.count_cons, htail]
        have hne : (Event.genCall j (Cell.toText (r.getD 0 Cell.na))
            (Cell.toText (r.getD 3 Cell.na)) ==
            Event.genCall i (Cell.toText ((rs.getD (i - (j + 1)) []).getD 0 Cell.na))
              (Cell.toText ((rs.getD (i - (j + 1)) []).getD 3 Cell.na))) = false := by
          apply beq_false_of_ne
          intro hcontra
          exact hij (Event.genCall.inj hcontra).1.symm
        rw [hne]
        simp

theorem string_mk_append (a b : List Char) : String.mk a ++ String.mk b = String.mk (a ++ b) :=
  rfl

theorem stemOf_append_suffixOf (name : String) : stemOf name ++ suffixOf name = name := by
  rw [stemOf, suffixOf]
  cases h : dotSplitIdx name with
  | none =>
    simp
  | some i =>
    rw [string_mk_append, List.take_append_drop]

theorem length_outputName (name : String) : (outputName name).length = name.length + 8 := by
  have h := congrArg String.length (stemOf_append_suffixOf name)
  rw [String.length_append] at h
  rw [outputName, String.length_append, String.length_append]
  have h8 : ("_updated" : String).length = 8 := rfl
  omega

theorem outputName_ne (name : String) : outputName name ≠ name := by
  intro h
  have := congrArg String.length h
  rw [length_outputName] at this
  omega

/-- Shared shape of a successful `process_spreadsheet` result: the event
trace is `genEvents`, and the final table is the per-row map in one of the
two output-column regimes (existing column, or fresh column created only
when some row is processed). -/
theorem process_result_shape (oracle : Oracle) (ge : String) (t t' : Table)
    (evs : List Event)
    (hwf : ∀ r ∈ t.rows, r.length = t.header.length)
    (hok : process_spreadsheet oracle ge t = Except.ok (t', evs)) :
    evs = genEvents 0 t.rows ∧
    ((output_column t ∈ t.header ∧ t'.header = t.header ∧
       t'.rows = t.rows.map (fun r =>
         if shouldSkip r then r
         else r.set (t.header.indexOf (output_column t)) (Cell.str (emailFor oracle ge r)))) ∨
     (output_column t ∉ t.header ∧
       ((t.rows.all shouldSkip = true ∧ t' = t) ∨
        (t'.header = t.header ++ [output_column t] ∧
         t'.rows = t.rows.map (fun r =>
           r ++ [if shouldSkip r then Cell.na else Cell.str (emailFor oracle ge r)]))))) := by
  have h4 : 4 ≤ t.header.length := by
    by_contra hlt
    rw [process_spreadsheet, if_pos (by omega)] at hok
    exact absurd hok (by simp)
  by_cases hmem : output_column t ∈ t.header
  · rw [process_spreadsheet_mem oracle ge t h4 hmem] at hok
    injection hok with hpair
    injection hpair with hT hE
    refine ⟨hE.symm, Or.inl ⟨hmem, ?_, ?_⟩⟩
    · rw [← hT]
    · rw [← hT]
  · rw [process_spreadsheet_nonmem oracle ge t h4 hmem hwf] at hok
    injection hok with hpair
    injection hpair with hT hE
    refine ⟨hE.symm, Or.inr ⟨hmem, ?_⟩⟩
    by_cases hall : t.rows.all shouldSkip
    · rw [if_pos hall] at hT
      exact Or.inl ⟨hall, hT.symm⟩
    · rw [if_neg hall] at hT
      refine Or.inr ⟨?_, ?_⟩
      · rw [← hT]
      · rw [← hT]

/-- C1: for every row of the table whose description cell or name cell is
the missing-value marker, the row processor skips the row entirely: no
generator call carries that row's index, and the row is left untouched in
the output (at most extended by the missing marker when a later processed
row created the new output column, so its output cell is never a generated
value). -/
theorem c1_missing_row_skipped (oracle : Oracle) (ge : String) (t : Table)
    (i : Nat) (t' : Table) (evs : List Event)
    (hwf : ∀ r ∈ t.rows, r.length = t.header.length)
    (hmiss : ((t.rows.getD i []).getD 3 Cell.na).isNA = true ∨
             ((t.rows.getD i []).getD 0 Cell.na).isNA = true)
    (hok : process_spreadsheet oracle ge t = Except.ok (t', evs)) :
    (∀ nm ds, Event.genCall i nm ds ∉ evs) ∧
    (t'.rows.getD i [] = t.rows.getD i [] ∨
     t'.rows.getD i [] = t.rows.getD i [] ++ [Cell.na]) := by
  have hskip : shouldSkip (t.rows.getD i []) = true := by
    rw [shouldSkip]
    rcases hmiss with h | h
    · rw [h, Bool.true_or]
    · rw [h, Bool.or_true]
  obtain ⟨hev, hshape⟩ := process_result_shape oracle ge t t' evs hwf hok
  constructor
  · intro nm ds hmem
    rw [hev] at hmem
    have := (genEvents_call_mem t.rows 0 i nm ds hmem).2.2.1
    rw [Nat.sub_zero] at this
    rw [hskip] at this
    exact absurd this (by simp)
  · by_cases hi : i < t.rows.length
    · rcases hshape with ⟨_, _, hrows⟩ | ⟨_, hcase⟩
      · left
        rw [hrows, getD_map_lt _ _ _ _ [] hi, hskip]
        simp
      · rcases hcase with ⟨_, ht⟩ | ⟨_, hrows⟩
        · left
          rw [ht]
        · right
          rw [hrows, getD_map_lt _ _ _ _ [] hi, hskip]
          simp
    · left
      have hlen : t'.rows.length = t.rows.length ∨ t' = t := by
        rcases hshape with ⟨_, _, hrows⟩ | ⟨_, hcase⟩
        · left; rw [hrows]; simp
        · rcases hcase with ⟨_, ht⟩ | ⟨_, hrows⟩
          · right; exact ht
          · left; rw [hrows]; simp
      rcases hlen with hlen | ht
      · rw [List.getD_eq_default _ _ (by omega), List.getD_eq_default _ _ (by omega)]
      · rw [ht]

/-- Witness for C1 at a concrete table: one row with a missing name cell is
skipped and unchanged. -/
theorem c1_missing_row_skipped_witness :
    (∀ nm ds, Event.genCall 0 nm ds ∉ ([] : List Event)) ∧
    ((Table.mk ["A", "B", "C", "D"]
        [[Cell.na, Cell.str "x", Cell.str "y", Cell.str "z"]]).rows.getD 0 [] =
      (Table.mk ["A", "B", "C", "D"]
        [[Cell.na, Cell.str "x", Cell.str "y", Cell.str "z"]]).rows.getD 0 [] ∨
     (Table.mk ["A", "B", "C", "D"]
        [[Cell.na, Cell.str "x", Cell.str "y", Cell.str "z"]]).rows.getD 0 [] =
      (Table.mk ["A", "B", "C", "D"]
        [[Cell.na, Cell.str "x", Cell.str "y", Cell.str "z"]]).rows.getD 0 [] ++ [Cell.na]) :=
  c1_missing_row_skipped (fun _ _ => Except.ok "E") "T"
    (Table.mk ["A", "B", "C", "D"] [[Cell.na, Cell.str "x", Cell.str "y", Cell.str "z"]])
    0
    (Table.mk ["A", "B", "C", "D"] [[Cell.na, Cell.str "x", Cell.str "y", Cell.str "z"]])
    [] (by decide) (by decide) rfl

/-- C4: for every well-formed input table (with at least one complete row),
a successful run preserves the row count, and the output rows are the
pointwise image of the input rows in the same order. -/
theorem c4_row_count_and_order (oracle : Oracle) (ge : String) (t t' : Table)
    (evs : List Event)
    (hwf : ∀ r ∈ t.rows, r.length = t.header.length)
    (_hcomplete : ∃ r ∈ t.rows, shouldSkip r = false)
    (hok : process_spreadsheet oracle ge t = Except.ok (t', evs)) :
    t'.rows.length = t.rows.length ∧
    ∃ f : List Cell → List Cell, t'.rows = t.rows.map f := by
  obtain ⟨_, hshape⟩ := process_result_shape oracle ge t t' evs hwf hok
  rcases hshape with ⟨_, _, hrows⟩ | ⟨_, hcase⟩
  · exact ⟨by rw [hrows]; simp, ⟨_, hrows⟩⟩
  · rcases hcase with ⟨_, ht⟩ | ⟨_, hrows⟩
    · refine ⟨by rw [ht], ⟨id, ?_⟩⟩
      rw [ht, List.map_id]
    · exact ⟨by rw [hrows]; simp, ⟨_, hrows⟩⟩

/-- Witness for C4 at a concrete table: one complete row, count and order
preserved. -/
theorem c4_row_count_and_order_witness :
    (Table.mk ["A", "B", "C", "D", "E"]
        [[Cell.str "n", Cell.str "x", Cell.str "y", Cell.str "d", Cell.na]]).rows.length =
      (Table.mk ["A", "B", "C", "D", "E"]
        [[Cell.str "n", Cell.str "x", Cell.str "y", Cell.str "d", Cell.str "OK"]]).rows.length ∧
    ∃ f : List Cell → List Cell,
      (Table.mk ["A", "B", "C", "D", "E"]
        [[Cell.str "n", Cell.str "x", Cell.str "y", Cell.str "d", Cell.str "OK"]]).rows =
      (Table.mk ["A", "B", "C", "D", "E"]
        [[Cell.str "n", Cell.str "x", Cell.str "y", Cell.str "d", Cell.na]]).rows.map f := by
  have h := c4_row_count_and_order (fun _ _ => Except.ok "OK") "T"
    (Table.mk ["A", "B", "C", "D", "E"]
      [[Cell.str "n", Cell.str "x", Cell.str "y", Cell.str "d", Cell.na]])
    (Table.mk ["A", "B", "C", "D", "E"]
      [[Cell.str "n", Cell.str "x", Cell.str "y", Cell.str "d", Cell.str "OK"]])
    [Event.genCall 0 "n" "d"] (by decide) (by decide) rfl
  exact ⟨h.1.symm, h.2⟩

/-- C2: in positional mode, a table with fewer than 4 columns makes the run
fail with the schema error; the event trace shows the parse attempt only —
no row was processed and no output file was written. -/
theorem c2_too_few_columns (fs : FS) (oracle : Oracle) (ge : String) (p : FsPath)
    (t : Table)
    (hex : fs.pathExists = true)
    (hp : fs.parseResult = Except.ok t)
    (hcols : t.header.length < 4) :
    (run fs oracle ge p).1 =
      Except.error (Err.schemaError "Spreadsheet must have at least 4 columns") ∧
    (run fs oracle ge p).2 = [Event.parseAttempt] ∧
    (∀ i nm ds, Event.genCall i nm ds ∉ (run fs oracle ge p).2) ∧
    (∀ d b, Event.fileWrite d b ∉ (run fs oracle ge p).2) := by
  obtain ⟨pe, pr, wo⟩ := fs
  simp only at hex hp
  subst hex
  subst hp
  have hps : process_spreadsheet oracle ge t =
      Except.error (Err.schemaError "Spreadsheet must have at least 4 columns") := by
    rw [process_spreadsheet, if_pos hcols]
  refine ⟨?_, ?_, ?_, ?_⟩
  · simp [run, hps]
  · simp [run, hps]
  · intro i nm ds
    simp [run, hps]
  · intro d b
    simp [run, hps]

/-- Witness for C2 at a concrete 3-column table. -/
theorem c2_too_few_columns_witness :
    (run (FS.mk true (Except.ok (Table.mk ["A", "B", "C"] [[Cell.str "a", Cell.str "b", Cell.str "c"]])) true)
        (fun _ _ => Except.ok "E") "T" (FsPath.mk "" "spreadsheet.csv")).1 =
      Except.error (Err.schemaError "Spreadsheet must have at least 4 columns") ∧
    (run (FS.mk true (Except.ok (Table.mk ["A", "B", "C"] [[Cell.str "a", Cell.str "b", Cell.str "c"]])) true)
        (fun _ _ => Except.ok "E") "T" (FsPath.mk "" "spreadsheet.csv")).2 = [Event.parseAttempt] ∧
    (∀ i nm ds, Event.genCall i nm ds ∉
      (run (FS.mk true (Except.ok (Table.mk ["A", "B", "C"] [[Cell.str "a", Cell.str "b", Cell.str "c"]])) true)
        (fun _ _ => Except.ok "E") "T" (FsPath.mk "" "spreadsheet.csv")).2) ∧
    (∀ d b, Event.fileWrite d b ∉
      (run (FS.mk true (Except.ok (Table.mk ["A", "B", "C"] [[Cell.str "a", Cell.str "b", Cell.str "c"]])) true)
        (fun _ _ => Except.ok "E") "T" (FsPath.mk "" "spreadsheet.csv")).2) :=
  c2_too_few_columns
    (FS.mk true (Except.ok (Table.mk ["A", "B", "C"] [[Cell.str "a", Cell.str "b", Cell.str "c"]])) true)
    (fun _ _ => Except.ok "E") "T" (FsPath.mk "" "spreadsheet.csv")
    (Table.mk ["A", "B", "C"] [[Cell.str "a", Cell.str "b", Cell.str "c"]])
    rfl rfl (by decide)

/-- C5: the saved output path keeps the input's directory, its name is the
input's stem, then `_updated`, then the input's extension (stem and
extension split the input name exactly), and the output path never equals
the input path, so the input file is never overwritten. -/
theorem c5_output_path (p : FsPath) (_hvalid : p.base ≠ "") :
    (savePath p).dir = p.dir ∧
    (savePath p).base = stemOf p.base ++ "_updated" ++ suffixOf p.base ∧
    stemOf p.base ++ suffixOf p.base = p.base ∧
    savePath p ≠ p := by
  refine ⟨rfl, rfl, stemOf_append_suffixOf p.base, ?_⟩
  intro h
  exact outputName_ne p.base (congrArg FsPath.base h)

/-- Witness for C5 at a concrete path. -/
theorem c5_output_path_witness :
    (savePath (FsPath.mk "/data/" "spreadsheet.csv")).dir = "/data/" ∧
    (savePath (FsPath.mk "/data/" "spreadsheet.csv")).base =
      stemOf "spreadsheet.csv" ++ "_updated" ++ suffixOf "spreadsheet.csv" ∧
    stemOf "spreadsheet.csv" ++ suffixOf "spreadsheet.csv" = "spreadsheet.csv" ∧
    savePath (FsPath.mk "/data/" "spreadsheet.csv") ≠ FsPath.mk "/data/" "spreadsheet.csv" :=
  c5_output_path (FsPath.mk "/data/" "spreadsheet.csv") (by decide)

/-- C6: positional column resolution on a table with at least 4 columns
selects column 0 as the name column, column 3 as the description column,
and column 4 as the output column when more than 4 columns exist, else the
fixed default label `Generated_Email`. -/
theorem c6_positional_resolution (t : Table) (h4 : 4 ≤ t.header.length) :
    company_name_column t = t.header.get ⟨0, by omega⟩ ∧
    description_column t = t.header.get ⟨3, by omega⟩ ∧
    (∀ h5 : 4 < t.header.length, output_column t = t.header.get ⟨4, h5⟩) ∧
    (t.header.length = 4 → output_column t = "Generated_Email") := by
  refine ⟨?_, ?_, ?_, ?_⟩
  · rw [company_name_column, List.getD_eq_getElem _ _ (by omega)]
    simp
  · rw [description_column, List.getD_eq_getElem _ _ (by omega)]
    simp
  · intro h5
    rw [output_column, List.getD_eq_getElem _ _ h5]
    simp
  · intro hlen
    rw [output_column, List.getD_eq_default _ _ (by omega)]

/-- Witness for C6 at concrete tables with 4 and 5 columns. -/
theorem c6_positional_resolution_witness :
    company_name_column (Table.mk ["A", "B", "C", "D"] []) = "A" ∧
    description_column (Table.mk ["A", "B", "C", "D"] []) = "D" ∧
    output_column (Table.mk ["A", "B", "C", "D"] []) = "Generated_Email" ∧
    output_column (Table.mk ["A", "B", "C", "D", "E"] []) = "E" := by
  have h1 := c6_positional_resolution (Table.mk ["A", "B", "C", "D"] []) (by decide)
  have h2 := c6_positional_resolution (Table.mk ["A", "B", "C", "D", "E"] []) (by decide)
  refine ⟨?_, ?_, h1.2.2.2 rfl, ?_⟩
  · rw [h1.1]
    rfl
  · rw [h1.2.1]
    rfl
  · rw [h2.2.2.1 (by decide)]
    rfl

/-- C7: when the input path does not exist, the run fails with the
not-found error and no parse attempt (nor any other event) occurs. -/
theorem c7_missing_path (fs : FS) (oracle : Oracle) (ge : String) (p : FsPath)
    (hex : fs.pathExists = false) :
    (run fs oracle ge p).1 =
      Except.error (Err.notFound ("csv file not found at " ++ pathDisplay p)) ∧
    (run fs oracle ge p).2 = [] ∧
    Event.parseAttempt ∉ (run fs oracle ge p).2 := by
  refine ⟨?_, ?_, ?_⟩
  · simp [run, hex]
  · simp [run, hex]
  · simp [run, hex]

/-- Witness for C7 at a concrete missing path. -/
theorem c7_missing_path_witness :
    (run (FS.mk false (Except.error "no file") true) (fun _ _ => Except.ok "E") "T"
        (FsPath.mk "" "spreadsheet.csv")).1 =
      Except.error (Err.notFound ("csv file not found at " ++
        pathDisplay (FsPath.mk "" "spreadsheet.csv"))) ∧
    (run (FS.mk false (Except.error "no file") true) (fun _ _ => Except.ok "E") "T"
        (FsPath.mk "" "spreadsheet.csv")).2 = [] ∧
    Event.parseAttempt ∉
      (run (FS.mk false (Except.error "no file") true) (fun _ _ => Except.ok "E") "T"
        (FsPath.mk "" "spreadsheet.csv")).2 :=
  c7_missing_path (FS.mk false (Except.error "no file") true) (fun _ _ => Except.ok "E") "T"
    (FsPath.mk "" "spreadsheet.csv") rfl

/-- C8: a processed row receives exactly one write — the cell of the
resolved output column — and every other column's value in that row is
unchanged in the output. -/
theorem c8_single_cell_write (oracle : Oracle) (ge : String) (t : Table) (i : Nat)
    (t' : Table) (evs : List Event)
    (hwf : ∀ r ∈ t.rows, r.length = t.header.length)
    (hi : i < t.rows.length)
    (hname : ((t.rows.getD i []).getD 0 Cell.na).isNA = false)
    (hdesc : ((t.rows.getD i []).getD 3 Cell.na).isNA = false)
    (hok : process_spreadsheet oracle ge t = Except.ok (t', evs)) :
    ∃ cIdx : Nat,
      t'.header.getD cIdx "" = output_column t ∧
      (t'.rows.getD i []).getD cIdx Cell.na =
        Cell.str (emailFor oracle ge (t.rows.getD i [])) ∧
      ∀ c : Nat, c ≠ cIdx →
        (t'.rows.getD i []).getD c Cell.na = (t.rows.getD i []).getD c Cell.na := by
  obtain ⟨_, hshape⟩ := process_result_shape oracle ge t t' evs hwf hok
  have hrmem : t.rows.getD i [] ∈ t.rows := by
    rw [List.getD_eq_getElem _ _ hi]
    exact List.getElem_mem _
  have hrlen : (t.rows.getD i []).length = t.header.length := hwf _ hrmem
  have hsf : shouldSkip (t.rows.getD i []) = false := by
    rw [shouldSkip, hdesc, hname]
    rfl
  have hnot : ¬ (shouldSkip (t.rows.getD i []) = true) := by
    rw [hsf]
    exact Bool.false_ne_true
  rcases hshape with ⟨hmem, hhd, hrows⟩ | ⟨hnm, hcase⟩
  · refine ⟨t.header.indexOf (output_column t), ?_, ?_, ?_⟩
    · rw [hhd]
      exact getD_indexOf_of_mem _ _ _ hmem
    · rw [hrows, getD_map_lt _ _ _ _ [] hi, if_neg hnot]
      exact getD_set_self _ _ _ _ (by rw [hrlen]; exact List.indexOf_lt_length.mpr hmem)
    · intro c hc
      rw [hrows, getD_map_lt _ _ _ _ [] hi, if_neg hnot]
      exact getD_set_ne _ _ _ _ _ (fun h => hc h.symm)
  · rcases hcase with ⟨hall, _⟩ | ⟨hhd, hrows⟩
    · exact absurd (List.all_eq_true.mp hall _ hrmem) hnot
    · refine ⟨t.header.length, ?_, ?_, ?_⟩
      · rw [hhd]
        exact getD_append_len t.header (output_column t) [] ""
      · rw [hrows, getD_map_lt _ _ _ _ [] hi, if_neg hnot]
        rw [show t.header.length = (t.rows.getD i []).length from hrlen.symm]
        exact getD_append_len (t.rows.getD i []) _ [] Cell.na
      · intro c hc
        rw [hrows, getD_map_lt _ _ _ _ [] hi]
        by_cases hlt : c < (t.rows.getD i []).length
        · exact getD_concat_lt _ _ _ _ hlt
        · rw [List.getD_eq_default _ _ (by
              rw [List.length_append]
              simp only [List.length_cons, List.length_nil]
              omega),
            List.getD_eq_default _ _ (by omega)]

/-- Witness for C8 at a concrete 4-column table with one complete row: the
new output cell holds the email and the original four cells are unchanged. -/
theorem c8_single_cell_write_witness :
    ∃ cIdx : Nat,
      (Table.mk ["A", "B", "C", "D", "Generated_Email"]
        [[Cell.str "n", Cell.str "x", Cell.str "y", Cell.str "d", Cell.str "OK"]]).header.getD cIdx "" =
        output_column (Table.mk ["A", "B", "C", "D"]
          [[Cell.str "n", Cell.str "x", Cell.str "y", Cell.str "d"]]) ∧
      ((Table.mk ["A", "B", "C", "D", "Generated_Email"]
        [[Cell.str "n", Cell.str "x", Cell.str "y", Cell.str "d", Cell.str "OK"]]).rows.getD 0 []).getD cIdx Cell.na =
        Cell.str (emailFor (fun _ _ => Except.ok "OK") "T"
          ((Table.mk ["A", "B", "C", "D"]
            [[Cell.str "n", Cell.str "x", Cell.str "y", Cell.str "d"]]).rows.getD 0 [])) ∧
      ∀ c : Nat, c ≠ cIdx →
        ((Table.mk ["A", "B", "C", "D", "Generated_Email"]
          [[Cell.str "n", Cell.str "x", Cell.str "y", Cell.str "d", Cell.str "OK"]]).rows.getD 0 []).getD c Cell.na =
        ((Table.mk ["A", "B", "C", "D"]
          [[Cell.str "n", Cell.str "x", Cell.str "y", Cell.str "d"]]).rows.getD 0 []).getD c Cell.na :=
  c8_single_cell_write (fun _ _ => Except.ok "OK") "T"
    (Table.mk ["A", "B", "C", "D"] [[Cell.str "n", Cell.str "x", Cell.str "y", Cell.str "d"]])
    0
    (Table.mk ["A", "B", "C", "D", "Generated_Email"]
      [[Cell.str "n", Cell.str "x", Cell.str "y", Cell.str "d", Cell.str "OK"]])
    [Event.genCall 0 "n" "d"]
    (by decide) (by decide) (by decide) (by decide) rfl

/-- C9: when the table already has a fifth column, a skipped row is wholly
unchanged (its pre-existing fifth-column value is preserved), and a
processed row's fifth-column cell is overwritten with the generator's
result. -/
theorem c9_preexisting_fifth_column (oracle : Oracle) (ge : String) (t : Table)
    (i : Nat) (t' : Table) (evs : List Event)
    (hwf : ∀ r ∈ t.rows, r.length = t.header.length)
    (hnd : t.header.Nodup)
    (h5 : 4 < t.header.length)
    (hi : i < t.rows.length)
    (hok : process_spreadsheet oracle ge t = Except.ok (t', evs)) :
    (shouldSkip (t.rows.getD i []) = true →
      t'.rows.getD i [] = t.rows.getD i []) ∧
    (shouldSkip (t.rows.getD i []) = false →
      (t'.rows.getD i []).getD 4 Cell.na =
        Cell.str (emailFor oracle ge (t.rows.getD i []))) := by
  obtain ⟨_, hshape⟩ := process_result_shape oracle ge t t' evs hwf hok
  have hout : output_column t = t.header.getD 4 "" := by
    rw [output_column, List.getD_eq_getElem _ _ h5, List.getD_eq_getElem _ _ h5]
  have hmem : output_column t ∈ t.header := by
    rw [output_column, List.getD_eq_getElem _ _ h5]
    exact List.getElem_mem _
  have hidx : t.header.indexOf (output_column t) = 4 := by
    rw [hout]
    exact indexOf_getD_of_nodup t.header hnd 4 "" h5
  have hrmem : t.rows.getD i [] ∈ t.rows := by
    rw [List.getD_eq_getElem _ _ hi]
    exact List.getElem_mem _
  have hrlen : (t.rows.getD i []).length = t.header.length := hwf _ hrmem
  rcases hshape with ⟨_, _, hrows⟩ | ⟨hnm, _⟩
  · constructor
    · intro hskip
      rw [hrows, getD_map_lt _ _ _ _ [] hi, if_pos hskip]
    · intro hproc
      have hnot : ¬ (shouldSkip (t.rows.getD i []) = true) := by
        rw [hproc]
        exact Bool.false_ne_true
      rw [hrows, getD_map_lt _ _ _ _ [] hi, if_neg hnot, hidx]
      exact getD_set_self _ _ _ _ (by omega)
  · exact absurd hmem hnm

/-- Witness for C9 at a concrete 5-column table: a skipped row keeps its
pre-existing fifth-column value, a processed row's is overwritten. -/
theorem c9_preexisting_fifth_column_witness :
    (shouldSkip ((Table.mk ["A", "B", "C", "D", "E"]
        [[Cell.na, Cell.str "x", Cell.str "y", Cell.str "d", Cell.str "old"]]).rows.getD 0 []) = true →
      (Table.mk ["A", "B", "C", "D", "E"]
        [[Cell.na, Cell.str "x", Cell.str "y", Cell.str "d", Cell.str "old"]]).rows.getD 0 [] =
      (Table.mk ["A", "B", "C", "D", "E"]
        [[Cell.na, Cell.str "x", Cell.str "y", Cell.str "d", Cell.str "old"]]).rows.getD 0 []) ∧
    (shouldSkip ((Table.mk ["A", "B", "C", "D", "E"]
        [[Cell.na, Cell.str "x", Cell.str "y", Cell.str "d", Cell.str "old"]]).rows.getD 0 []) = false →
      ((Table.mk ["A", "B", "C", "D", "E"]
        [[Cell.na, Cell.str "x", Cell.str "y", Cell.str "d", Cell.str "old"]]).rows.getD 0 []).getD 4 Cell.na =
      Cell.str (emailFor (fun _ _ => Except.ok "OK") "T"
        ((Table.mk ["A", "B", "C", "D", "E"]
          [[Cell.na, Cell.str "x", Cell.str "y", Cell.str "d", Cell.str "old"]]).rows.getD 0 []))) :=
  c9_preexisting_fifth_column (fun _ _ => Except.ok "OK") "T"
    (Table.mk ["A", "B", "C", "D", "E"]
      [[Cell.na, Cell.str "x", Cell.str "y", Cell.str "d", Cell.str "old"]])
    0
    (Table.mk ["A", "B", "C", "D", "E"]
      [[Cell.na, Cell.str "x", Cell.str "y", Cell.str "d", Cell.str "old"]])
    []
    (by decide) (by decide) (by decide) (by decide) rfl

/-- C10: a row whose name and description cells are both present is
processed on missing-ness alone — the generator is invoked exactly once
with the text conversions of the two cell values (even when such a value is
the empty string), and its result is written to the row's output cell. -/
theorem c10_missingness_only (oracle : Oracle) (ge : String) (t : Table) (i : Nat)
    (t' : Table) (evs : List Event)
    (hwf : ∀ r ∈ t.rows, r.length = t.header.length)
    (hi : i < t.rows.length)
    (hname : ((t.rows.getD i []).getD 0 Cell.na).isNA = false)
    (hdesc : ((t.rows.getD i []).getD 3 Cell.na).isNA = false)
    (hok : process_spreadsheet oracle ge t = Except.ok (t', evs)) :
    evs.count (Event.genCall i
      (Cell.toText ((t.rows.getD i []).getD 0 Cell.na))
      (Cell.toText ((t.rows.getD i []).getD 3 Cell.na))) = 1 ∧
    ∃ cIdx : Nat, (t'.rows.getD i []).getD cIdx Cell.na =
      Cell.str (generate_custom_email oracle ge
        (Cell.toText ((t.rows.getD i []).getD 0 Cell.na))
        (Cell.toText ((t.rows.getD i []).getD 3 Cell.na))) := by
  obtain ⟨hev, hshape⟩ := process_result_shape oracle ge t t' evs hwf hok
  have hrmem : t.rows.getD i [] ∈ t.rows := by
    rw [List.getD_eq_getElem _ _ hi]
    exact List.getElem_mem _
  have hrlen : (t.rows.getD i []).length = t.header.length := hwf _ hrmem
  have hsf : shouldSkip (t.rows.getD i []) = false := by
    rw [shouldSkip, hdesc, hname]
    rfl
  have hnot : ¬ (shouldSkip (t.rows.getD i []) = true) := by
    rw [hsf]
    exact Bool.false_ne_true
  constructor
  · rw [hev]
    have h := genEvents_count_one t.rows 0 i (Nat.zero_le i)
      (by rw [Nat.sub_zero]; exact hi)
      (by rw [Nat.sub_zero]; exact hsf)
    rw [Nat.sub_zero] at h
    exact h
  · rcases hshape with ⟨hmem, _, hrows⟩ | ⟨hnm, hcase⟩
    · refine ⟨t.header.indexOf (output_column t), ?_⟩
      rw [hrows, getD_map_lt _ _ _ _ [] hi, if_neg hnot]
      exact getD_set_self _ _ _ _ (by rw [hrlen]; exact List.indexOf_lt_length.mpr hmem)
    · rcases hcase with ⟨hall, _⟩ | ⟨_, hrows⟩
      · exact absurd (List.all_eq_true.mp hall _ hrmem) hnot
      · refine ⟨t.header.length, ?_⟩
        rw [hrows, getD_map_lt _ _ _ _ [] hi, if_neg hnot]
        rw [show t.header.length = (t.rows.getD i []).length from hrlen.symm]
        exact getD_append_len (t.rows.getD i []) _ [] Cell.na

/-- Witness for C10 at a concrete table whose name cell is the empty string
(present but empty): the row is still processed and the generator is called
exactly once with the empty name text. -/
theorem c10_missingness_only_witness :
    ([Event.genCall 0 "" "d"] : List Event).count (Event.genCall 0
      (Cell.toText (((Table.mk ["A", "B", "C", "D"]
        [[Cell.str "", Cell.str "x", Cell.str "y", Cell.str "d"]]).rows.getD 0 []).getD 0 Cell.na))
      (Cell.toText (((Table.mk ["A", "B", "C", "D"]
        [[Cell.str "", Cell.str "x", Cell.str "y", Cell.str "d"]]).rows.getD 0 []).getD 3 Cell.na))) = 1 ∧
    ∃ cIdx : Nat,
      ((Table.mk ["A", "B", "C", "D", "Generated_Email"]
        [[Cell.str "", Cell.str "x", Cell.str "y", Cell.str "d", Cell.str "OK"]]).rows.getD 0 []).getD cIdx Cell.na =
      Cell.str (generate_custom_email (fun _ _ => Except.ok "OK") "T"
        (Cell.toText (((Table.mk ["A", "B", "C", "D"]
          [[Cell.str "", Cell.str "x", Cell.str "y", Cell.str "d"]]).rows.getD 0 []).getD 0 Cell.na))
        (Cell.toText (((Table.mk ["A", "B", "C", "D"]
          [[Cell.str "", Cell.str "x", Cell.str "y", Cell.str "d"]]).rows.getD 0 []).getD 3 Cell.na))) :=
  c10_missingness_only (fun _ _ => Except.ok "OK") "T"
    (Table.mk ["A", "B", "C", "D"] [[Cell.str "", Cell.str "x", Cell.str "y", Cell.str "d"]])
    0
    (Table.mk ["A", "B", "C", "D", "Generated_Email"]
      [[Cell.str "", Cell.str "x", Cell.str "y", Cell.str "d", Cell.str "OK"]])
    [Event.genCall 0 "" "d"]
    (by decide) (by decide) (by decide) (by decide) rfl

/-- C3: when the oracle fails on a processed row's request, the generator
returns the inline string `Error generating email: ` followed by the cause;
`process_spreadsheet` still succeeds (no exception escapes the row loop),
the inline string is written into the row's output cell like a normal
result, and every other complete row is still sent to the generator. -/
theorem c3_oracle_failure_inline (oracle : Oracle) (ge : String) (t : Table)
    (i : Nat) (e : String)
    (hwf : ∀ r ∈ t.rows, r.length = t.header.length)
    (h4 : 4 ≤ t.header.length)
    (hi : i < t.rows.length)
    (hname : ((t.rows.getD i []).getD 0 Cell.na).isNA = false)
    (hdesc : ((t.rows.getD i []).getD 3 Cell.na).isNA = false)
    (hfail : oracle "gpt-4o"
      [("system", systemPersona),
       ("user", promptFor ge
         (Cell.toText ((t.rows.getD i []).getD 0 Cell.na))
         (Cell.toText ((t.rows.getD i []).getD 3 Cell.na)))] = Except.error e) :
    ∃ t2 evs, process_spreadsheet oracle ge t = Except.ok (t2, evs) ∧
      (∃ cIdx : Nat, (t2.rows.getD i []).getD cIdx Cell.na =
        Cell.str ("Error generating email: " ++ e)) ∧
      (∀ j, j < t.rows.length → shouldSkip (t.rows.getD j []) = false →
        ∃ a b, Event.genCall j a b ∈ evs) := by
  have hok : process_spreadsheet oracle ge t = Except.ok
      ((processRowsAux oracle ge (output_column t) 0 t.rows t).1,
       (processRowsAux oracle ge (output_column t) 0 t.rows t).2) := by
    rw [process_spreadsheet, if_neg (by omega)]
  refine ⟨_, _, hok, ?_, ?_⟩
  · obtain ⟨_, hshape⟩ := process_result_shape oracle ge t _ _ hwf hok
    have hrmem : t.rows.getD i [] ∈ t.rows := by
      rw [List.getD_eq_getElem _ _ hi]
      exact List.getElem_mem _
    have hrlen : (t.rows.getD i []).length = t.header.length := hwf _ hrmem
    have hsf : shouldSkip (t.rows.getD i []) = false := by
      rw [shouldSkip, hdesc, hname]
      rfl
    have hnot : ¬ (shouldSkip (t.rows.getD i []) = true) := by
      rw [hsf]
      exact Bool.false_ne_true
    have hemail : emailFor oracle ge (t.rows.getD i []) =
        "Error generating email: " ++ e := by
      rw [emailFor, generate_custom_email, hfail]
    rcases hshape with ⟨hmem, _, hrows⟩ | ⟨hnm, hcase⟩
    · refine ⟨t.header.indexOf (output_column t), ?_⟩
      rw [hrows, getD_map_lt _ _ _ _ [] hi, if_neg hnot, ← hemail]
      exact getD_set_self _ _ _ _ (by rw [hrlen]; exact List.indexOf_lt_length.mpr hmem)
    · rcases hcase with ⟨hall, _⟩ | ⟨_, hrows⟩
      · exact absurd (List.all_eq_true.mp hall _ hrmem) hnot
      · refine ⟨t.header.length, ?_⟩
        rw [hrows, getD_map_lt _ _ _ _ [] hi, if_neg hnot, ← hemail]
        rw [show t.header.length = (t.rows.getD i []).length from hrlen.symm]
        exact getD_append_len (t.rows.getD i []) _ [] Cell.na
  · intro j hj hsj
    obtain ⟨hev, _⟩ := process_result_shape oracle ge t _ _ hwf hok
    have h := genEvents_call_of_proc t.rows 0 j (Nat.zero_le j)
      (by rw [Nat.sub_zero]; exact hj)
      (by rw [Nat.sub_zero]; exact hsj)
    rw [Nat.sub_zero] at h
    exact ⟨_, _, by rw [hev]; exact h⟩

/-- Witness for C3 at a concrete table with two complete rows and an oracle
that always fails: the first row's output cell holds the inline error string
and both rows still get generator calls. -/
theorem c3_oracle_failure_inline_witness :
    ∃ t2 evs, process_spreadsheet (fun _ _ => Except.error "boom") "T"
      (Table.mk ["A", "B", "C", "D"]
        [[Cell.str "n", Cell.str "x", Cell.str "y", Cell.str "d"],
         [Cell.str "m", Cell.str "u", Cell.str "v", Cell.str "w"]]) = Except.ok (t2, evs) ∧
      (∃ cIdx : Nat,
        (t2.rows.getD 0 []).getD cIdx Cell.na =
          Cell.str ("Error generating email: " ++ "boom")) ∧
      (∀ j, j < (Table.mk ["A", "B", "C", "D"]
          [[Cell.str "n", Cell.str "x", Cell.str "y", Cell.str "d"],
           [Cell.str "m", Cell.str "u", Cell.str "v", Cell.str "w"]]).rows.length →
        shouldSkip ((Table.mk ["A", "B", "C", "D"]
          [[Cell.str "n", Cell.str "x", Cell.str "y", Cell.str "d"],
           [Cell.str "m", Cell.str "u", Cell.str "v", Cell.str "w"]]).rows.getD j []) = false →
        ∃ a b, Event.genCall j a b ∈ evs) :=
  c3_oracle_failure_inline (fun _ _ => Except.error "boom") "T"
    (Table.mk ["A", "B", "C", "D"]
      [[Cell.str "n", Cell.str "x", Cell.str "y", Cell.str "d"],
       [Cell.str "m", Cell.str "u", Cell.str "v", Cell.str "w"]])
    0 "boom"
    (by decide) (by decide) (by decide) (by decide) (by decide) rfl
